import Mathlib

/-!
Shallow embedding of the `markdown` package of the mdfmt repository
(src/markdown/main.go), a Markdown-to-Markdown formatter, together with
theorems checking its specification.

Modelling conventions:
- Go byte slices and Go strings are both modelled as `List UInt8`
  (all string literals occurring in the source are ASCII);
- the `io.Writer` is modelled by returning the written bytes alongside
  the updated renderer state, so every emission routine has the shape
  `Renderer → ... → Renderer × List UInt8`;
- Go maps with `int` keys (`orderedListCounter`, `paragraph`) are
  modelled as total functions `Int → α` returning the Go zero value on
  missing keys, which matches Go map-read semantics;
- the external code formatter (`go/format.Source`, an excluded
  collaborator) is a parameter `gofmt : List UInt8 → Option (List UInt8)`
  where `none` models a formatting error;
- the external file system is a parameter
  `fs : String → Except String (List UInt8)`.
-/

namespace Markdown

/-- Bytes of an ASCII string literal.  Every literal passed to this
function in this file is ASCII, so this agrees byte-for-byte with Go's
UTF-8 string bytes. -/
def str (s : String) : List UInt8 :=
  s.data.map (fun c => UInt8.ofNat c.toNat)

/-- Walk status returned to the tree-walking driver; mirrors
`ast.WalkStatus` of the external gomarkdown ast package
(`GoToNext`, `SkipChildren`, `Terminate`). -/
inductive WalkStatus where
  | goToNext
  | skipChildren
  | terminate
deriving DecidableEq

/-- Document-tree node kinds consumed by the renderer, with the
kind-specific attributes the renderer reads (mirrors the `ast` node
types dispatched on in `RenderNode`).  `other` stands for any node kind
without renderer logic (the `default` arm of the switch). -/
inductive Node where
  | text (literal : List UInt8)
  | softbreak
  | hardbreak
  | emph (literal : List UInt8)
  | strong (literal : List UInt8)
  | del (literal : List UInt8)
  | blockQuote (literal : List UInt8)
  | link (destination title literal : List UInt8)
  | image (destination title : List UInt8)
  | code (literal : List UInt8)
  | codeBlock (info literal : List UInt8)
  | document
  | paragraph
  | htmlSpan (literal : List UInt8)
  | htmlBlock (literal : List UInt8)
  | heading (level : Nat)
  | horizontalRule
  | list (listFlags : Nat)
  | listItem (listFlags : Nat) (literal : List UInt8)
  | other

/-- The hook type `RenderNodeFunc`: given the node and the traversal
direction it may write bytes and return a walk status together with a
`didHandle` flag (the Go hook receives the writer; here the bytes it
writes are returned). -/
def RenderNodeFunc : Type :=
  Node → Bool → List UInt8 × WalkStatus × Bool

/-- Options specifies options for formatting (struct `Options`). -/
structure Options where
  terminal : Bool := false
  renderNodeHook : Option RenderNodeFunc := none

/-- Renderer state (struct `Renderer`).  The fields `headers`,
`columnAligns`, `columnWidths`, `cells` are read and written only by
commented-out table code in the source and are omitted; `stringWidth`
is never consulted by any live rendering path (only by commented-out
heading/table code) and is omitted as well. -/
structure Renderer where
  orderedListCounter : Int → Int
  paragraph : Int → Bool
  listDepth : Int
  lastNormalText : List UInt8
  lastOutputLen : Nat
  opts : Options

/-- Update of a Go `map[int]α` modelled as a function. -/
def update {α : Type} (m : Int → α) (k : Int) (v : α) : Int → α :=
  fun x => if x = k then v else m x

/-- NewRenderer returns a Markdown renderer; if `opts` is nil the
defaults are used (`NewRenderer`).  Go zero values: empty maps behave
as constant-zero lookups, `listDepth` 0, `lastNormalText` the empty
string, `lastOutputLen` 0. -/
def NewRenderer (opts : Option Options) : Renderer :=
  { orderedListCounter := fun _ => 0
    paragraph := fun _ => false
    listDepth := 0
    lastNormalText := []
    lastOutputLen := 0
    opts := opts.getD {} }

/-- Method `out`: records the length of the write in `lastOutputLen`
and writes the bytes. -/
def out (r : Renderer) (d : List UInt8) : Renderer × List UInt8 :=
  ({ r with lastOutputLen := d.length }, d)

/-- Method `outs`: records the byte length of the string in
`lastOutputLen` and writes it. -/
def outs (r : Renderer) (s : String) : Renderer × List UInt8 :=
  ({ r with lastOutputLen := (str s).length }, str s)

/-- Method `cr`: writes a newline only when the last write was
non-empty. -/
def cr (r : Renderer) : Renderer × List UInt8 :=
  if r.lastOutputLen > 0 then outs r "\n" else (r, [])

/-- Method `doubleSpace`: writes a newline unconditionally (the
`out.Len() > 0` guard in the source is commented out with a TODO). -/
def doubleSpace (r : Renderer) : Renderer × List UInt8 :=
  outs r "\n"

/-- Function `isNumber`: true when every byte is an ASCII digit
(vacuously true on empty input). -/
def isNumber (data : List UInt8) : Bool :=
  data.all (fun b => if b < 48 ∨ b > 57 then false else true)

/-- Helper for `cleanWithoutTrim`: `p` is the previously emitted byte
(Go local `p`, zero-initialized). -/
def cleanWithoutTrimAux (p : UInt8) : List UInt8 → List UInt8
  | [] => []
  | q :: rest =>
    let q1 := if q = 10 ∨ q = 13 ∨ q = 9 then 32 else q
    if q1 ≠ 32 ∨ p ≠ 32 then q1 :: cleanWithoutTrimAux q1 rest
    else cleanWithoutTrimAux p rest

/-- Function `cleanWithoutTrim`: maps newline, carriage return and tab
to space and collapses runs of spaces, without trimming. -/
def cleanWithoutTrim (s : List UInt8) : List UInt8 :=
  cleanWithoutTrimAux 0 s

/-- Function `escape`: doubles every backslash (byte 92). -/
def escape (t : List UInt8) : List UInt8 :=
  t.flatMap (fun b => if b = 92 then [92, 92] else [b])

/-- Function `needsEscaping`: the Go switch on the whole string value
of the fragment, in source order. -/
def needsEscaping (t lastNormalText : List UInt8) : Bool :=
  if t = str "\\" ∨ t = str "`" ∨ t = str "*" ∨ t = str "_" ∨
      t = str "\x7b" ∨ t = str "\x7d" ∨ t = str "[" ∨ t = str "]" ∨
      t = str "(" ∨ t = str ")" ∨ t = str "#" ∨ t = str "+" ∨
      t = str "-" then true
  else if t = str "!" then false
  else if t = str "." then isNumber lastNormalText
  else if t = str "<" ∨ t = str ">" then true
  else false

/-- Method `skipSpaceIfNeededNormalText`: both paths of the source
return false (the buffer-tracking logic is commented out); the guard on
the first byte is kept (`cleanString[0] != ' '`, called only on
non-empty input, modelled with `headD`). -/
def skipSpaceIfNeededNormalText (cleanString : List UInt8) : Bool :=
  if cleanString.headD 0 ≠ 32 then false else false

/-- Method `text`: escape decision on the whole literal against
`lastNormalText`, update of `lastNormalText`, suppression of a bare
newline inside a list, whitespace collapsing, emission. -/
def text (r : Renderer) (literal : List UInt8) : Renderer × List UInt8 :=
  let normalText := literal
  let lit := if needsEscaping literal r.lastNormalText
    then str "\\" ++ literal else literal
  let r1 := { r with lastNormalText := normalText }
  if r1.listDepth > 0 ∧ lit = str "\n" then (r1, [])
  else
    let cleanString := cleanWithoutTrim lit
    if cleanString = [] then (r1, [])
    else
      let cleanString1 := if skipSpaceIfNeededNormalText cleanString
        then cleanString.tail else cleanString
      out r1 cleanString1

/-- Decimal digits of a natural number, as ASCII bytes. -/
def natDecimal (n : Nat) : List UInt8 :=
  (Nat.toDigits 10 n).map (fun c => UInt8.ofNat c.toNat)

/-- The external `fmt.Fprintf` verb `%d` on a Go int. -/
def intDecimal : Int → List UInt8
  | .ofNat n => natDecimal n
  | .negSucc n => 45 :: natDecimal (n + 1)

/-- Helper for `indentWrite`: `needIndent` says whether the writer is
at the beginning of a line. -/
def indentWriteAux (needIndent : Bool) : List UInt8 → List UInt8
  | [] => []
  | b :: rest => (if needIndent then [9] else []) ++ b :: indentWriteAux (b == 10) rest

/-- Modelled from the spec: the external indentwriter collaborator
(`indentwriter.New(w, 1).Write`), which is not part of this repository.
Per §4.2 ListItem, the written content is "indented by one level (each
line of the literal content prefixed by one indent unit)"; the indent
unit is a tab, written lazily before the first byte of each line, so an
empty write emits nothing and no indent follows a trailing newline.
These writes go directly to the writer, bypassing `out`/`outs`, so they
do not update `lastOutputLen`. -/
def indentWrite (t : List UInt8) : List UInt8 :=
  indentWriteAux true t

/-- Value of `ast.ListTypeOrdered` in the external gomarkdown ast
package (first member of the `ListType` flag enumeration, `1 << 0`). -/
def listTypeOrdered : Nat := 1

/-- Value of `ast.ListItemEndOfList` in the external gomarkdown ast
package (`1 << 5`). -/
def listItemEndOfList : Nat := 32

/-- Method `list`: double space, increment `listDepth`, initialize the
ordered counter of the (incremented) depth to 1 for an ordered list;
the deferred decrement of `listDepth` runs when the Go function itself
returns, so it is already undone in the returned state. -/
def list (r : Renderer) (listFlags : Nat) : Renderer × List UInt8 :=
  let flags := listFlags
  let (r1, o1) := doubleSpace r
  let r2 := { r1 with listDepth := r1.listDepth + 1 }
  let r3 := if flags &&& listTypeOrdered ≠ 0
    then { r2 with orderedListCounter := update r2.orderedListCounter r2.listDepth 1 }
    else r2
  ({ r3 with listDepth := r3.listDepth - 1 }, o1)

/-- Method `listItem`: marker (ordered counter of the current depth via
`fmt.Fprintf`, or `-`), indented literal, newline, and loose-item blank
line controlled by the `paragraph` flag of the current depth.  The
`Fprintf` and indentwriter writes go directly to `w` and do not touch
`lastOutputLen`. -/
def listItem (r : Renderer) (listFlags : Nat) (literal : List UInt8) : Renderer × List UInt8 :=
  let flags := listFlags
  let t := literal
  let (r1, o1) :=
    if flags &&& listTypeOrdered ≠ 0 then
      let marker := intDecimal (r.orderedListCounter r.listDepth) ++ str "."
      let body := indentWrite t
      ({ r with orderedListCounter :=
          update r.orderedListCounter r.listDepth (r.orderedListCounter r.listDepth + 1) },
        marker ++ body)
    else
      let (ra, oa) := outs r "-"
      (ra, oa ++ indentWrite t)
  let (r2, o2) := outs r1 "\n"
  if r2.paragraph r2.listDepth then
    let (r3, o3) := if flags &&& listItemEndOfList = 0 then outs r2 "\n" else (r2, [])
    ({ r3 with paragraph := update r3.paragraph r3.listDepth false }, o1 ++ o2 ++ o3)
  else
    (r2, o1 ++ o2)

/-- Method `horizontalRule`. -/
def horizontalRule (r : Renderer) : Renderer × List UInt8 :=
  let (r1, o1) := doubleSpace r
  let (r2, o2) := outs r1 "---\n"
  (r2, o1 ++ o2)

/-- Method `heading`: for levels at least 3, emit `level` hash marks
and a space (the setext underline logic for levels 1 and 2 is
commented out in the source). -/
def heading (r : Renderer) (level : Nat) : Renderer × List UInt8 :=
  let (r1, o1) := doubleSpace r
  if level ≥ 3 then
    let s := List.flatten (List.replicate level (str "#")) ++ str " "
    let (r2, o2) := out r1 s
    (r2, o1 ++ o2)
  else (r1, o1)

/-- Method `htmlSpan`. -/
def htmlSpan (r : Renderer) (literal : List UInt8) : Renderer × List UInt8 :=
  out r literal

/-- Method `htmlBlock`. -/
def htmlBlock (r : Renderer) (literal : List UInt8) : Renderer × List UInt8 :=
  let (r1, o1) := doubleSpace r
  let (r2, o2) := out r1 literal
  let (r3, o3) := outs r2 "\n"
  (r3, o1 ++ o2 ++ o3)

/-- Method `doParagraph`: double space, set the `paragraph` flag of the
current depth, trailing newline. -/
def doParagraph (r : Renderer) : Renderer × List UInt8 :=
  let (r1, o1) := doubleSpace r
  let r2 := { r1 with paragraph := update r1.paragraph r1.listDepth true }
  let (r3, o3) := outs r2 "\n"
  (r3, o1 ++ o3)

/-- Function `formatCode`: a formatting attempt happens exactly when
the `lang` argument equals "Go" or "go"; the parameter `gofmt` models
the external `format.Source` collaborator, `none` standing for a
formatting error (mapped to `ok = false` in the source). -/
def formatCode (gofmt : List UInt8 → Option (List UInt8))
    (lang : List UInt8) (t : List UInt8) : Option (List UInt8) :=
  if lang = str "Go" ∨ lang = str "go" then gofmt t else none

/-- ASCII whitespace in the sense of Go's `unicode.IsSpace` restricted
to single bytes: tab, newline, vertical tab, form feed, carriage
return, space. -/
def isSpaceByte (b : UInt8) : Bool :=
  b = 9 ∨ b = 10 ∨ b = 11 ∨ b = 12 ∨ b = 13 ∨ b = 32

/-- Helper for `fields`: `acc` holds the bytes of the current field in
reverse. -/
def fieldsAux (acc : List UInt8) : List UInt8 → List (List UInt8)
  | [] => if acc = [] then [] else [acc.reverse]
  | b :: rest =>
    if isSpaceByte b then
      if acc = [] then fieldsAux [] rest else acc.reverse :: fieldsAux [] rest
    else fieldsAux (b :: acc) rest

/-- The external `strings.Fields` (restricted to ASCII input): splits
around runs of whitespace, producing no empty fields. -/
def fields (s : List UInt8) : List (List UInt8) :=
  fieldsAux [] s

/-- The field loop of `codeBlock`: take the first field that is
non-empty after stripping one leading '.' (byte 46) as the fence
language tag; the loop breaks after the first hit (fields are non-empty
so indexing `elt[0]` is safe, modelled with `headD`). -/
def firstTag : List (List UInt8) → Option (List UInt8)
  | [] => none
  | elt :: rest =>
    let elt1 := if elt.headD 0 = 46 then elt.tail else elt
    if elt1 = [] then firstTag rest else some elt1

/-- Method `codeBlock`: double space; opening fence with the language
tag extracted from the info string (bare fence when no tag); the
literal, reformatted when `formatCode` succeeds on the *whole* info
string, unchanged otherwise; closing fence. -/
def codeBlock (gofmt : List UInt8 → Option (List UInt8))
    (r : Renderer) (info literal : List UInt8) : Renderer × List UInt8 :=
  let (r1, o1) := doubleSpace r
  let t := literal
  let lang := info
  let (r2, o2) :=
    match firstTag (fields lang) with
    | some elt =>
      let (ra, oa) := outs r1 "```"
      let (rb, ob) := out ra elt
      (rb, oa ++ ob)
    | none => outs r1 "```"
  let (r3, o3) := outs r2 "\n"
  let (r4, o4) :=
    match formatCode gofmt lang t with
    | some formattedCode => out r3 formattedCode
    | none => out r3 t
  let (r5, o5) := outs r4 "```\n"
  (r5, o1 ++ o2 ++ o3 ++ o4 ++ o5)

/-- Method `code` (inline code span). -/
def code (r : Renderer) (literal : List UInt8) : Renderer × List UInt8 :=
  let (r1, o1) := outs r "`"
  let (r2, o2) := out r1 literal
  let (r3, o3) := outs r2 "`"
  (r3, o1 ++ o2 ++ o3)

/-- Method `image`: alt text is always empty (the source has no
accessor for it); the destination has backslashes escaped; an optional
double-quoted title. -/
def image (r : Renderer) (destination title : List UInt8) : Renderer × List UInt8 :=
  let lnk := destination
  let alt : List UInt8 := []
  let (r1, o1) := outs r "!["
  let (r2, o2) := out r1 alt
  let (r3, o3) := outs r2 "]("
  let (r4, o4) := out r3 (escape lnk)
  let (r5, o5) :=
    if title.length ≠ 0 then
      let (ra, oa) := outs r4 " \""
      let (rb, ob) := out ra title
      let (rc, oc) := outs rb "\""
      (rc, oa ++ ob ++ oc)
    else (r4, [])
  let (r6, o6) := outs r5 ")"
  (r6, o1 ++ o2 ++ o3 ++ o4 ++ o5 ++ o6)

/-- Method `link`: bracketed literal content, destination with
backslashes escaped, optional double-quoted title. -/
def link (r : Renderer) (destination title literal : List UInt8) : Renderer × List UInt8 :=
  let lnk := destination
  let content := literal
  let (r1, o1) := outs r "["
  let (r2, o2) := out r1 content
  let (r3, o3) := outs r2 "]("
  let (r4, o4) := out r3 (escape lnk)
  let (r5, o5) :=
    if title.length ≠ 0 then
      let (ra, oa) := outs r4 " \""
      let (rb, ob) := out ra title
      let (rc, oc) := outs rb "\""
      (rc, oa ++ ob ++ oc)
    else (r4, [])
  let (r6, o6) := outs r5 ")"
  (r6, o1 ++ o2 ++ o3 ++ o4 ++ o5 ++ o6)

/-- The external `bytes.Split` with the single-byte separator newline,
as used by `blockQuote`: splitting the empty slice yields one empty
piece; a trailing separator yields a trailing empty piece. -/
def bytesSplitNL : List UInt8 → List (List UInt8)
  | [] => [[]]
  | b :: rest =>
    if b = 10 then [] :: bytesSplitNL rest
    else
      match bytesSplitNL rest with
      | [] => [[b]]
      | l :: ls => (b :: l) :: ls

/-- The line loop of `blockQuote`: the iteration at index `len-1` (the
last element of the split, whatever it is) is skipped by the
`continue`; every other line is emitted as `>`, then a space and the
line when non-empty, then a newline. -/
def blockQuoteLoop (r : Renderer) : List (List UInt8) → Renderer × List UInt8
  | [] => (r, [])
  | [_] => (r, [])
  | line :: rest =>
    let (ra, oa) := outs r ">"
    let (rb, ob) :=
      if line.length ≠ 0 then
        let (x, o1) := outs ra " "
        let (y, o2) := out x line
        (y, o1 ++ o2)
      else (ra, [])
    let (rc, oc) := outs rb "\n"
    let (rd, od) := blockQuoteLoop rc rest
    (rd, oa ++ ob ++ oc ++ od)

/-- Method `blockQuote`: double space, then the line loop over the
newline split of the literal. -/
def blockQuote (r : Renderer) (literal : List UInt8) : Renderer × List UInt8 :=
  let t := literal
  let (r1, o1) := doubleSpace r
  let lines := bytesSplitNL t
  let (r2, o2) := blockQuoteLoop r1 lines
  (r2, o1 ++ o2)

/-- Method `del` (strikethrough). -/
def del (r : Renderer) (literal : List UInt8) : Renderer × List UInt8 :=
  let (r1, o1) := outs r "~~"
  let (r2, o2) := out r1 literal
  let (r3, o3) := outs r2 "~~"
  (r3, o1 ++ o2 ++ o3)

/-- Method `strong`: double-asterisk markers, with ANSI bold-on/reset
sequences when the Terminal option is set. -/
def strong (r : Renderer) (literal : List UInt8) : Renderer × List UInt8 :=
  let t := literal
  let (r1, o1) := if r.opts.terminal then outs r "\x1b[1m" else (r, [])
  let (r2, o2) := outs r1 "**"
  let (r3, o3) := out r2 t
  let (r4, o4) := outs r3 "**"
  let (r5, o5) := if r4.opts.terminal then outs r4 "\x1b[0m" else (r4, [])
  (r5, o1 ++ o2 ++ o3 ++ o4 ++ o5)

/-- Method `emphasis`: nothing at all for empty content, otherwise
single-asterisk markers. -/
def emphasis (r : Renderer) (literal : List UInt8) : Renderer × List UInt8 :=
  let t := literal
  if t.length = 0 then (r, [])
  else
    let (r1, o1) := outs r "*"
    let (r2, o2) := out r1 t
    let (r3, o3) := outs r2 "*"
    (r3, o1 ++ o2 ++ o3)

/-- The switch of `RenderNode`: dispatch to the kind-specific emission
routine; `document` does nothing; unknown kinds are silently skipped.
The `entering` flag does not reach this dispatch. -/
def renderDispatch (gofmt : List UInt8 → Option (List UInt8))
    (r : Renderer) : Node → Renderer × List UInt8
  | .text literal => text r literal
  | .softbreak => cr r
  | .hardbreak => outs r "  \n"
  | .emph literal => emphasis r literal
  | .strong literal => strong r literal
  | .del literal => del r literal
  | .blockQuote literal => blockQuote r literal
  | .link destination title literal => link r destination title literal
  | .image destination title => image r destination title
  | .code literal => code r literal
  | .codeBlock info literal => codeBlock gofmt r info literal
  | .document => (r, [])
  | .paragraph => doParagraph r
  | .htmlSpan literal => htmlSpan r literal
  | .htmlBlock literal => htmlBlock r literal
  | .heading level => heading r level
  | .horizontalRule => horizontalRule r
  | .list listFlags => list r listFlags
  | .listItem listFlags literal => listItem r listFlags literal
  | .other => (r, [])

/-- Result of `RenderNode`: updated state, written bytes, walk status. -/
structure RenderResult where
  r : Renderer
  written : List UInt8
  status : WalkStatus

/-- Method `RenderNode`: consult `RenderNodeHook` first (when it
handles the node, return its status; otherwise its writes precede the
default output); the default dispatch never consults `entering` and
always returns `GoToNext`. -/
def RenderNode (gofmt : List UInt8 → Option (List UInt8))
    (r : Renderer) (node : Node) (entering : Bool) : RenderResult :=
  match r.opts.renderNodeHook with
  | some hook =>
    let (o, status, didHandle) := hook node entering
    if didHandle then ⟨r, o, status⟩
    else
      let (r1, o1) := renderDispatch gofmt r node
      ⟨r1, o ++ o1, .goToNext⟩
  | none =>
    let (r1, o1) := renderDispatch gofmt r node
    ⟨r1, o1, .goToNext⟩

mutual
/-- A document tree: a node together with its children. -/
inductive Tree where
  | mk (node : Node) (children : TreeList)
/-- Children of a tree node. -/
inductive TreeList where
  | nil
  | cons (t : Tree) (ts : TreeList)
end

mutual
/-- Modelled from the spec: the external tree-walking driver (§2
"Control flow"), which is not part of this repository.  It "invokes the
core's per-node callback once per node per direction
(entering/leaving)": the node is visited entering, its children are
walked, then it is visited leaving.  The driver never prunes because
this renderer always returns GoToNext (§4.1). -/
def specWalk (gofmt : List UInt8 → Option (List UInt8))
    (r : Renderer) : Tree → Renderer × List UInt8
  | .mk node children =>
    let s1 := RenderNode gofmt r node true
    let (r2, o2) := specWalkList gofmt s1.r children
    let s3 := RenderNode gofmt r2 node false
    (s3.r, s1.written ++ o2 ++ s3.written)
/-- Walk of a list of sibling subtrees, threading the renderer state. -/
def specWalkList (gofmt : List UInt8 → Option (List UInt8))
    (r : Renderer) : TreeList → Renderer × List UInt8
  | .nil => (r, [])
  | .cons t ts =>
    let (r1, o1) := specWalk gofmt r t
    let (r2, o2) := specWalkList gofmt r1 ts
    (r2, o1 ++ o2)
end

/-- The external `md.Render(doc, r)`: RenderHeader and RenderFooter of
this renderer are no-ops, so the render is exactly the walk of the
document tree (the walk itself is modelled from the spec, see
`specWalk`). -/
def mdRender (gofmt : List UInt8 → Option (List UInt8))
    (doc : Tree) (r : Renderer) : List UInt8 :=
  (specWalk gofmt r doc).2

/-- Function `readSource`: if src is non-nil return it; otherwise read
the file named by filename from the external file system `fs`
(`ioutil.ReadFile`, an excluded collaborator; `Except.error` models a
read error). -/
def readSource (fs : String → Except String (List UInt8))
    (filename : String) (src : Option (List UInt8)) : Except String (List UInt8) :=
  match src with
  | some b => .ok b
  | none => fs filename

/-- Function `Process`: acquire the input via `readSource`, propagating
a read error with no output; otherwise parse with the external parser
(`parse`, an excluded collaborator) and render the document with a
fresh renderer; parsing and rendering never produce an error. -/
def Process (fs : String → Except String (List UInt8))
    (parse : List UInt8 → Tree) (gofmt : List UInt8 → Option (List UInt8))
    (filename : String) (src : Option (List UInt8)) (opts : Option Options) :
    Except String (List UInt8) :=
  match readSource fs filename src with
  | .error e => .error e
  | .ok input => .ok (mdRender gofmt (parse input) (NewRenderer opts))

/-- Rendering of a single quoted line as the spec states it: a `>`
marker, then a space and the line content when the line is non-empty,
terminated by a newline. -/
def quoteLine (line : List UInt8) : List UInt8 :=
  str ">" ++ (if line.length ≠ 0 then str " " ++ line else []) ++ str "\n"

theorem blockQuoteLoop_opts (ls : List (List UInt8)) :
    ∀ r : Renderer, ((blockQuoteLoop r ls).1).opts = r.opts := by
  induction ls with
  | nil => intro r; rfl
  | cons line rest ih =>
    intro r
    cases rest with
    | nil => rfl
    | cons l2 rest2 =>
      simp only [blockQuoteLoop, outs, out]
      split_ifs <;> simp [ih]

theorem renderDispatch_opts (gofmt : List UInt8 → Option (List UInt8))
    (r : Renderer) (n : Node) : ((renderDispatch gofmt r n).1).opts = r.opts := by
  cases n with
  | blockQuote literal =>
    simp only [renderDispatch, Markdown.blockQuote, doubleSpace, outs]
    exact blockQuoteLoop_opts _ _
  | _ =>
    simp only [renderDispatch, Markdown.text, cr, outs, out, emphasis, strong, del,
      Markdown.link, image, Markdown.code, codeBlock, doParagraph, htmlSpan, htmlBlock,
      heading, horizontalRule, Markdown.list, listItem, doubleSpace, formatCode] <;>
    repeat' (first | rfl | split)

theorem RenderNode_opts (gofmt : List UInt8 → Option (List UInt8))
    (r : Renderer) (node : Node) (entering : Bool) :
    ((RenderNode gofmt r node entering).r).opts = r.opts := by
  unfold RenderNode
  cases h : r.opts.renderNodeHook with
  | none => exact renderDispatch_opts gofmt r node
  | some hook =>
    simp only
    split <;> first | rfl | exact renderDispatch_opts gofmt r node

mutual
theorem specWalk_opts (gofmt : List UInt8 → Option (List UInt8)) :
    ∀ (t : Tree) (r : Renderer), ((specWalk gofmt r t).1).opts = r.opts
  | .mk node children, r => by
    simp only [specWalk]
    rw [RenderNode_opts, specWalkList_opts gofmt children, RenderNode_opts]
theorem specWalkList_opts (gofmt : List UInt8 → Option (List UInt8)) :
    ∀ (ts : TreeList) (r : Renderer), ((specWalkList gofmt r ts).1).opts = r.opts
  | .nil, _ => rfl
  | .cons t ts, r => by
    simp only [specWalkList]
    rw [specWalkList_opts gofmt ts, specWalk_opts gofmt t]
end

theorem RenderNode_entering_eq (gofmt : List UInt8 → Option (List UInt8))
    (r : Renderer) (node : Node) (b b' : Bool)
    (h : r.opts.renderNodeHook = none) :
    RenderNode gofmt r node b = RenderNode gofmt r node b' := by
  unfold RenderNode
  rw [h]

/-- C3: when `Options.RenderNodeHook` is nil, `RenderNode` on a node is
indistinguishable for `entering = true` and `entering = false` (same
state update, same written bytes, same status), because the default
dispatch never consults the entering flag; consequently, under the
spec-modelled walker that visits a node in both directions, the node's
emission routine is executed twice — the walk equals an entering visit,
the walk of the children, and a second visit that behaves exactly like
an entering visit. -/
theorem renderNodeIgnoresEnteringFlag (gofmt : List UInt8 → Option (List UInt8))
    (r : Renderer) (node : Node) (children : TreeList)
    (h : r.opts.renderNodeHook = none) :
    RenderNode gofmt r node true = RenderNode gofmt r node false ∧
    specWalk gofmt r (.mk node children) =
      (let s1 := RenderNode gofmt r node true
       let s2 := specWalkList gofmt s1.r children
       let s3 := RenderNode gofmt s2.1 node true
       (s3.r, s1.written ++ s2.2 ++ s3.written)) := by
  refine ⟨RenderNode_entering_eq gofmt r node true false h, ?_⟩
  simp only [specWalk]
  have hopts : ((specWalkList gofmt (RenderNode gofmt r node true).r children).1).opts.renderNodeHook
      = none := by
    rw [specWalkList_opts, RenderNode_opts, h]
  rw [RenderNode_entering_eq gofmt _ node false true hopts]

/-- Witness for C3 at a concrete input: a Paragraph node with no
children, the default renderer (nil hook), and a formatter that always
fails. -/
theorem renderNodeIgnoresEnteringFlag_witness :
    (NewRenderer none).opts.renderNodeHook = none ∧
    (RenderNode (fun _ => none) (NewRenderer none) Node.paragraph true =
        RenderNode (fun _ => none) (NewRenderer none) Node.paragraph false ∧
      specWalk (fun _ => none) (NewRenderer none) (.mk Node.paragraph .nil) =
        (let s1 := RenderNode (fun _ => none) (NewRenderer none) Node.paragraph true
         let s2 := specWalkList (fun _ => none) s1.r TreeList.nil
         let s3 := RenderNode (fun _ => none) s2.1 Node.paragraph true
         (s3.r, s1.written ++ s2.2 ++ s3.written))) :=
  ⟨rfl, renderNodeIgnoresEnteringFlag (fun _ => none) (NewRenderer none) Node.paragraph .nil rfl⟩

/-- The escape decision of `needsEscaping`, characterized as the spec
states it: true exactly when the whole fragment is one of the
structural characters, or is "." right after an all-digits fragment
(`isNumber` is vacuously true of the empty previous fragment). -/
theorem needsEscaping_iff (t lastText : List UInt8) :
    needsEscaping t lastText = true ↔
      ((t = str "\\" ∨ t = str "`" ∨ t = str "*" ∨ t = str "_" ∨
        t = str "\x7b" ∨ t = str "\x7d" ∨ t = str "[" ∨ t = str "]" ∨
        t = str "(" ∨ t = str ")" ∨ t = str "#" ∨ t = str "+" ∨
        t = str "-" ∨ t = str "<" ∨ t = str ">") ∨
       (t = str "." ∧ isNumber lastText = true)) := by
  unfold needsEscaping
  split_ifs with h1 h2 h3 h4
  · exact iff_of_true rfl (Or.inl (by tauto))
  · subst h2
    exact iff_of_false (by decide)
      (fun hr => hr.elim (fun a => absurd a (by decide)) (fun bc => absurd bc.1 (by decide)))
  · subst h3
    constructor
    · intro hn; exact Or.inr ⟨rfl, hn⟩
    · rintro (a | ⟨_, hn⟩)
      · exact absurd a (by decide)
      · exact hn
  · exact iff_of_true rfl (Or.inl (by tauto))
  · refine iff_of_false (by decide) ?_
    rintro (a | ⟨hdot, _⟩)
    · tauto
    · exact h3 hdot

/-- A fragment the escape decision accepts is emitted by `text` with a
single leading backslash (the cleaning pass leaves the escaped
fragment unchanged, stated as a hypothesis discharged by computation at
each of the finitely many escaped fragments). -/
theorem text_emits_escaped (r : Renderer) (t : List UInt8)
    (h : needsEscaping t r.lastNormalText = true)
    (h1 : ¬ (str "\\" ++ t = str "\n"))
    (h2 : cleanWithoutTrim (str "\\" ++ t) = str "\\" ++ t) :
    (Markdown.text r t).2 = str "\\" ++ t := by
  simp [Markdown.text, out, skipSpaceIfNeededNormalText, h, h1, h2,
    show (str "\\" : List UInt8) ≠ [] from by decide]

/-- C5: a Text fragment is emitted with a single leading backslash
exactly when its entire content equals one of the structural characters
backslash, backtick, asterisk, underscore, either brace, either
bracket, either parenthesis, hash, plus, hyphen, or either angle
bracket; a fragment equal to "." is escaped exactly when the preceding
fragment was all ASCII digits; "!" is never escaped; every other
fragment is not escaped. -/
theorem needsEscapingCharacterization (r : Renderer) (t lastText : List UInt8) :
    (needsEscaping t lastText = true ↔
      ((t = str "\\" ∨ t = str "`" ∨ t = str "*" ∨ t = str "_" ∨
        t = str "\x7b" ∨ t = str "\x7d" ∨ t = str "[" ∨ t = str "]" ∨
        t = str "(" ∨ t = str ")" ∨ t = str "#" ∨ t = str "+" ∨
        t = str "-" ∨ t = str "<" ∨ t = str ">") ∨
       (t = str "." ∧ isNumber lastText = true))) ∧
    (needsEscaping t r.lastNormalText = true →
      (Markdown.text r t).2 = str "\\" ++ t) := by
  refine ⟨needsEscaping_iff t lastText, fun h => ?_⟩
  rcases (needsEscaping_iff t r.lastNormalText).mp h with
    (hc | hc | hc | hc | hc | hc | hc | hc | hc | hc | hc | hc | hc | hc | hc) | ⟨hc, _⟩ <;>
    (subst hc; exact text_emits_escaped r _ h (by decide) (by decide))

/-- Witness for C5 at a concrete input: a fresh renderer and the
fragment "*". -/
theorem needsEscapingCharacterization_witness :
    (needsEscaping (str "*") [] = true ↔
      ((str "*" = str "\\" ∨ str "*" = str "`" ∨ str "*" = str "*" ∨ str "*" = str "_" ∨
        str "*" = str "\x7b" ∨ str "*" = str "\x7d" ∨ str "*" = str "[" ∨ str "*" = str "]" ∨
        str "*" = str "(" ∨ str "*" = str ")" ∨ str "*" = str "#" ∨ str "*" = str "+" ∨
        str "*" = str "-" ∨ str "*" = str "<" ∨ str "*" = str ">") ∨
       (str "*" = str "." ∧ isNumber [] = true))) ∧
    (needsEscaping (str "*") (NewRenderer none).lastNormalText = true →
      (Markdown.text (NewRenderer none) (str "*")).2 = str "\\" ++ str "*") :=
  needsEscapingCharacterization (NewRenderer none) (str "*") []

/-- C1: the claim states a 3-item ordered List at nesting depth 1
renders markers "1.", "2.", "3.".  Evaluating `list` followed by three
`listItem` calls on a fresh renderer shows the markers are "0.", "1.",
"2.": `list` initializes the counter of depth 1 to 1, but its deferred
`listDepth` decrement runs when `list` itself returns, so the items
read (and increment) the never-initialized counter of depth 0,
starting from Go's zero value 0. -/
theorem orderedListMarkersStartAtZero :
    (let r0 := NewRenderer none
     let s1 := (Markdown.list r0 listTypeOrdered).1
     let q1 := listItem s1 (listTypeOrdered + 16) []
     let q2 := listItem q1.1 listTypeOrdered []
     let q3 := listItem q2.1 (listTypeOrdered + listItemEndOfList) []
     q1.2 = str "0.\n" ∧ q2.2 = str "1.\n" ∧ q3.2 = str "2.\n" ∧
       s1.orderedListCounter 1 = 1 ∧ s1.listDepth = 0) := by decide

/-- C2: the claim states `listDepth` stays one greater than its
pre-call value while the List's children are rendered and is restored
only after the whole subtree.  In the code the deferred decrement runs
when `list` itself returns, so `listDepth` already equals its pre-call
value in the state `list` returns — the state in which the children
are subsequently rendered. -/
theorem listDepthRestoredOnReturn (r : Renderer) (listFlags : Nat) :
    ((Markdown.list r listFlags).1).listDepth = r.listDepth := by
  simp [Markdown.list, doubleSpace, outs]
  split_ifs <;> simp

/-- C4: the claim states each block routine writes its leading blank
line only when something has already been written, as decided by
`lastOutputLen`.  In the code `doubleSpace` writes the newline
unconditionally (the length check is commented out), so a fresh
renderer with `lastOutputLen = 0` still gets a leading newline before
its very first content. -/
theorem leadingNewlineUnconditional :
    (NewRenderer none).lastOutputLen = 0 ∧
    (doParagraph (NewRenderer none)).2 = str "\n" ++ str "\n" ∧
    (horizontalRule (NewRenderer none)).2 = str "\n" ++ str "---\n" ∧
    (∀ r : Renderer, (doubleSpace r).2 = str "\n") :=
  ⟨rfl, by decide, by decide, fun _ => rfl⟩

/-- C10: on a fresh renderer (whose `lastNormalText` is empty) a first
Text fragment "." is emitted as "\\.": `isNumber` holds vacuously of
the empty previous fragment. -/
theorem firstPeriodFragmentEscaped :
    (NewRenderer none).lastNormalText = [] ∧ isNumber [] = true ∧
    (Markdown.text (NewRenderer none) (str ".")).2 = str "\\." := by decide

/-- C6 counterexample: the fence tag extracted from the info string
".go" is "go", a recognized spelling of the formattable language, and
the tag "GO" matches it case-insensitively, yet in both cases the
literal is emitted unformatted even by a formatter that always
succeeds — `formatCode` receives the whole info string and compares it
for exact equality with "Go"/"go", not the extracted tag. -/
theorem codeBlockTagMatchDoesNotTriggerFormatting :
    firstTag (fields (str ".go")) = some (str "go") ∧
    (codeBlock (fun _ => some (str "FORMATTED")) (NewRenderer none) (str ".go") (str "x")).2
      = str "\n```go\nx```\n" ∧
    firstTag (fields (str "GO")) = some (str "GO") ∧
    (codeBlock (fun _ => some (str "FORMATTED")) (NewRenderer none) (str "GO") (str "x")).2
      = str "\n```GO\nx```\n" := by decide

/-- C6 amended: the fence tag is the first non-empty
whitespace-separated token of the info string after stripping one
leading '.', but a formatting attempt is made exactly when the entire
info string equals "Go" or "go"; when the formatter fails the original
literal is emitted between the fences and no error is surfaced. -/
theorem codeBlockOutputCharacterization (gofmt : List UInt8 → Option (List UInt8))
    (r : Renderer) (info literal : List UInt8) :
    (codeBlock gofmt r info literal).2 =
      str "\n" ++ str "```" ++ (firstTag (fields info)).getD [] ++ str "\n" ++
      (if info = str "Go" ∨ info = str "go" then (gofmt literal).getD literal else literal) ++
      str "```\n" := by
  unfold codeBlock formatCode doubleSpace outs out
  cases htag : firstTag (fields info) <;> split_ifs with hlang <;>
    cases hfmt : gofmt literal <;> simp [htag, hlang, hfmt]

/-- The newline split never returns an empty list of pieces. -/
theorem bytesSplitNL_ne_nil (s : List UInt8) : bytesSplitNL s ≠ [] := by
  cases s with
  | nil => simp [bytesSplitNL]
  | cons b rest =>
    simp only [bytesSplitNL]
    split_ifs
    · simp
    · cases bytesSplitNL rest <;> simp

/-- Splitting newline-terminated content: the trailing separator
contributes exactly one trailing empty piece. -/
theorem bytesSplitNL_append_newline (ys : List UInt8) :
    bytesSplitNL (ys ++ [10]) = bytesSplitNL ys ++ [[]] := by
  induction ys with
  | nil => rfl
  | cons b rest ih =>
    simp only [List.cons_append, bytesSplitNL]
    split_ifs
    · simp [ih]
    · simp only [List.append_eq]
      rw [ih]
      cases h : bytesSplitNL rest with
      | nil => exact absurd h (bytesSplitNL_ne_nil rest)
      | cons l ls => simp

/-- The `blockQuote` line loop writes exactly the quoted rendering of
every piece except the last, independent of the incoming renderer
state. -/
theorem blockQuoteLoop_written (ls : List (List UInt8)) :
    ∀ r : Renderer, (blockQuoteLoop r ls).2 = (ls.dropLast.map quoteLine).flatten := by
  induction ls with
  | nil => intro r; rfl
  | cons line rest ih =>
    intro r
    cases rest with
    | nil => rfl
    | cons l2 rest2 =>
      simp only [blockQuoteLoop, outs, out, quoteLine]
      split_ifs with hlen <;> simp [ih, quoteLine, hlen]

/-- C7 counterexample: for the literal "abc" (no trailing newline) the
split is the single non-empty line "abc", which is not a trailing
empty artifact, yet the loop skips it because it is the last element:
the block quote emits only the leading newline and the non-empty line
is dropped. -/
theorem blockQuoteDropsFinalUnterminatedLine :
    bytesSplitNL (str "abc") = [str "abc"] ∧
    (blockQuote (NewRenderer none) (str "abc")).2 = str "\n" := by decide

/-- C7 amended: the literal is split on newlines and every piece except
the last is emitted as '>' plus a space and the line when non-empty
(bare '>' when empty), newline-terminated; the skipped last piece is
the empty artifact of the split exactly when the content ends with a
newline — in that case (proved here) no line at all is dropped — while
a final line not terminated by a newline is dropped. -/
theorem blockQuoteEmitsAllTerminatedLines (r : Renderer) (literal : List UInt8)
    (h : literal.getLast? = some 10) :
    (blockQuote r literal).2 =
      str "\n" ++ ((bytesSplitNL literal.dropLast).map quoteLine).flatten := by
  have hne : literal ≠ [] := by
    intro e
    rw [e] at h
    exact Option.noConfusion h
  have hlast : literal.getLast hne = 10 := by
    have h2 := List.getLast?_eq_getLast literal hne
    rw [h] at h2
    exact (Option.some.injEq _ _).mp h2.symm
  have hsplit : literal = literal.dropLast ++ [10] := by
    conv_lhs => rw [← List.dropLast_append_getLast hne, hlast]
  have hout : (blockQuote r literal).2
      = str "\n" ++ (blockQuoteLoop ((doubleSpace r).1) (bytesSplitNL literal)).2 := by
    simp [Markdown.blockQuote, doubleSpace, outs]
  rw [hout, blockQuoteLoop_written]
  conv_lhs => rw [hsplit, bytesSplitNL_append_newline, List.dropLast_concat]

/-- Witness for C7's amended theorem at a concrete input: the
newline-terminated literal "abc\n" on a fresh renderer. -/
theorem blockQuoteEmitsAllTerminatedLines_witness :
    (str "abc\n").getLast? = some 10 ∧
    (blockQuote (NewRenderer none) (str "abc\n")).2 =
      str "\n" ++ ((bytesSplitNL (str "abc\n").dropLast).map quoteLine).flatten :=
  ⟨by decide, blockQuoteEmitsAllTerminatedLines (NewRenderer none) (str "abc\n") (by decide)⟩

/-- C8: with non-nil src, Process ignores the filename and the file
system entirely and returns the rendered output with no error; with nil
src it returns an error exactly when the file read fails, and that
error is the read error itself (the `Except.error` result carries no
output bytes, matching the nil byte result of the source). -/
theorem ProcessErrorOnlyOnFileReadFailure
    (fs fs' : String → Except String (List UInt8)) (parse : List UInt8 → Tree)
    (gofmt : List UInt8 → Option (List UInt8)) (filename filename' : String)
    (opts : Option Options) (b : List UInt8) (e : String) :
    Process fs parse gofmt filename (some b) opts =
      .ok (mdRender gofmt (parse b) (NewRenderer opts)) ∧
    Process fs parse gofmt filename (some b) opts =
      Process fs' parse gofmt filename' (some b) opts ∧
    (Process fs parse gofmt filename none opts = .error e ↔ fs filename = .error e) := by
  refine ⟨rfl, rfl, ?_⟩
  unfold Process readSource
  cases hfs : fs filename <;> simp [hfs]

/-- Witness for C8 at concrete inputs: a file system that fails, a
second one that succeeds, a trivial parser and formatter. -/
theorem ProcessErrorOnlyOnFileReadFailure_witness :
    Process (fun _ => Except.error "boom") (fun _ => Tree.mk Node.document TreeList.nil)
        (fun _ => none) "a" (some (str "x")) none =
      .ok (mdRender (fun _ => none) (Tree.mk Node.document TreeList.nil) (NewRenderer none)) ∧
    Process (fun _ => Except.error "boom") (fun _ => Tree.mk Node.document TreeList.nil)
        (fun _ => none) "a" (some (str "x")) none =
      Process (fun _ => Except.ok []) (fun _ => Tree.mk Node.document TreeList.nil)
        (fun _ => none) "b" (some (str "x")) none ∧
    (Process (fun _ => Except.error "boom") (fun _ => Tree.mk Node.document TreeList.nil)
        (fun _ => none) "a" none none = .error "boom" ↔
      (fun _ : String => (Except.error "boom" : Except String (List UInt8))) "a" =
        (Except.error "boom" : Except String (List UInt8))) :=
  ProcessErrorOnlyOnFileReadFailure (fun _ => Except.error "boom") (fun _ => Except.ok [])
    (fun _ => Tree.mk Node.document TreeList.nil) (fun _ => none) "a" "b" none (str "x") "boom"

end Markdown
